import Mathlib

/-!
Verification of the real-time chat delivery core (chatService.ts,
readTrackingService.ts, messageCacheService.ts) against its
natural-language specification.

The TypeScript services are shallowly embedded: message rows become a
structure with `Nat` ids and timestamps (the source stores numeric-string
ids and compares them with `parseInt` / string equality), the durable
store and the push transport become explicit parameters or events, and
the asynchronous subscription orchestration of `subscribeToMessages`
becomes a step function over an explicit event trace.
-/

namespace Boatsew

/-- A row of the `messages` table (src/services/chatService.ts /
`ChatMessage` in src/types/chat.ts).  `id` is the numeric insertion id
(the source keeps it as a numeric string and applies `parseInt`);
`created_at` is the timestamp, modelled as a `Nat`. -/
structure ChatMessage where
  id : Nat
  order_id : Nat
  sender_id : String
  message_text : String
  created_at : Nat
deriving DecidableEq, Repr

/-- A message row as seen by the unread-count computations.  Rows coming
straight from `getMessages` have no `isCurrentUser` field (the
TypeScript value is `undefined`), rows produced by
`getMessagesWithSender` or the subscription callbacks carry a real
boolean.  `none` models the absent field. -/
structure MsgRow where
  id : Nat
  sender_id : String
  created_at : Nat
  isCurrentUser : Option Bool
deriving DecidableEq, Repr

/-- JavaScript `!msg.isCurrentUser`: true when the field is absent
(`!undefined === true`) or `false`. -/
def jsFalsyFlag : Option Bool → Bool
  | none => true
  | some b => !b

/-- The dedup key `` `${message.id}-${message.created_at}` `` built by the
polling loops (chatService.ts:82,146). -/
def msgKey (m : ChatMessage) : Nat × Nat := (m.id, m.created_at)

/-- `Math.max(...messages.map(msg => parseInt(msg.id)))` over a nonempty
list (chatService.ts:97,161,210); on `[]` the model returns 0 (the source
only evaluates it under a nonempty guard). -/
def maxId : List ChatMessage → Nat
  | [] => 0
  | m :: rest => max m.id (maxId rest)

/-- A raw row from `getMessages` passed to an unread computation: the
`isCurrentUser` field is absent. -/
def toRow (m : ChatMessage) : MsgRow :=
  ⟨m.id, m.sender_id, m.created_at, none⟩

/-- `getMessagesWithSender` (chatService.ts:22-32): attaches
`isCurrentUser = (message.sender_id === currentUserId)`. -/
def withSender (uid : String) (m : ChatMessage) : MsgRow :=
  ⟨m.id, m.sender_id, m.created_at, some (m.sender_id == uid)⟩

/-- Stable insertion step for ordering by `created_at` ascending: the new
element goes before the first element with a `created_at` not below its
own, so equal timestamps keep their original relative order. -/
def insertByCA (m : ChatMessage) : List ChatMessage → List ChatMessage
  | [] => [m]
  | x :: xs =>
      if m.created_at ≤ x.created_at then m :: x :: xs
      else x :: insertByCA m xs

/-- Stable sort by `created_at` ascending, modelling the external durable
store's `order('created_at', { ascending: true })` clause used by
`getMessages` (chatService.ts:8-12).  Stability models the store
returning equal-timestamp rows in insertion order. -/
def sortByCA : List ChatMessage → List ChatMessage
  | [] => []
  | x :: xs => insertByCA x (sortByCA xs)

/-- `chatService.getMessages` (chatService.ts:7-19): select the thread's
rows and order by `created_at` ascending.  The durable `messages` table
is modelled as the list `table` in insertion order. -/
def getMessages (table : List ChatMessage) (orderId : Nat) : List ChatMessage :=
  sortByCA (table.filter (fun m => m.order_id == orderId))

/-- `chatService.sendMessage` (chatService.ts:35-54): inserts one new row
with a server-assigned id and timestamp; the effect on the durable table
is appending the row. -/
def sendMessage (table : List ChatMessage) (m : ChatMessage) : List ChatMessage :=
  table ++ [m]

/-- Ordering demanded by the spec for `fetchMessages`: non-decreasing
`created_at`, ties in insertion-id order. -/
def caIdOrder (a b : ChatMessage) : Prop :=
  a.created_at < b.created_at ∨ (a.created_at = b.created_at ∧ a.id < b.id)

instance (a b : ChatMessage) : Decidable (caIdOrder a b) := by
  unfold caIdOrder; exact inferInstance

/-- Modelled from the spec (spec §8.4): the unread count the spec claims
the facade computes — messages of the thread with id greater than the
read cursor that were not authored by the current user.  Stated for
comparison with the code's `chat_getUnreadCount`. -/
def specUnreadCount (table : List ChatMessage) (orderId : Nat) (uid : String)
    (lastRead : Nat) : Nat :=
  ((getMessages table orderId).filter
    (fun m => decide (lastRead < m.id) && !(m.sender_id == uid))).length

/-! ## Read-cursor store (readTrackingService.ts)

The localStorage read-tracking cache (`chat_read_tracking_<userId>`,
mapping order id to the last read message id) is modelled as an
association list keyed by (user id, order id); a lookup takes the most
recent entry.  The durable `message_reads` select and upsert are
modelled by explicit outcome parameters, one constructor per control
path of the source's error handling. -/

/-- The localStorage read-tracking cache across all users:
`((userId, orderId), lastMessageId)` entries, most recent first. -/
def ReadCache : Type := List ((String × Nat) × Nat)

instance : DecidableEq ReadCache := by
  unfold ReadCache; exact inferInstance

/-- Reading `lastMessageId` for one order from the cache
(readTrackingService.ts:17-25,46). -/
def cacheLookup (c : ReadCache) (u : String) (o : Nat) : Option Nat :=
  (List.find? (fun e => e.1 = (u, o)) c).map (·.2)

/-- `readTrackingService.updateCache` (readTrackingService.ts:28-39):
stores `lastMessageId` for `(user, order)`. -/
def updateCache (c : ReadCache) (u : String) (o : Nat) (mid : Nat) : ReadCache :=
  ((u, o), mid) :: c

/-- Outcome of the durable `message_reads` select in `getLastMessageId`:
a row is found, no row exists (PostgREST error PGRST116), the query
reports some other error, or the promise rejects (caught by the
surrounding try/catch). -/
inductive ReadsDbResult where
  | row (mid : Nat)
  | noRow
  | failure
  | thrown
deriving DecidableEq, Repr

/-- Outcome of the durable `message_reads` upsert in `markAsRead`: it
succeeds, returns an error object, or rejects. -/
inductive UpsertResult where
  | ok
  | failed
  | thrown
deriving DecidableEq, Repr

/-- `readTrackingService.getLastMessageId` (readTrackingService.ts:42-78).
Reads the cache, then consults the durable store: a found row updates
the cache and is returned; every failure path (`PGRST116`, other error,
thrown) returns the cached value.  The function never rejects — all
branches return normally. -/
def getLastMessageId (c : ReadCache) (u : String) (o : Nat)
    (db : ReadsDbResult) : ReadCache × Option Nat :=
  let cachedId := cacheLookup c u o
  match db with
  | .row mid => (updateCache c u o mid, some mid)
  | .noRow => (c, cachedId)
  | .failure => (c, cachedId)
  | .thrown => (c, cachedId)

/-- `readTrackingService.markAsRead` (readTrackingService.ts:81-109):
updates the cache first, then upserts; an upsert error is logged and
swallowed and a thrown error is caught, so every outcome leaves the
cache updated and returns normally. -/
def markAsRead (c : ReadCache) (u : String) (o : Nat) (mid : Nat)
    (db : UpsertResult) : ReadCache :=
  let c1 := updateCache c u o mid
  match db with
  | .ok => c1
  | .failed => c1
  | .thrown => c1

/-- The cursor scan of `readTrackingService.getUnreadCount`
(readTrackingService.ts:131-144): walk the list, set `foundLastRead`
at the cursor row, and count subsequent rows whose `isCurrentUser` is
JS-falsy. -/
def rtsScan (lastReadId : Nat) : List MsgRow → Bool → Nat
  | [], _ => 0
  | m :: rest, found =>
      if m.id = lastReadId then rtsScan lastReadId rest true
      else if found && jsFalsyFlag m.isCurrentUser then
        rtsScan lastReadId rest found + 1
      else rtsScan lastReadId rest found

/-- `readTrackingService.getUnreadCount` (readTrackingService.ts:121-145):
empty list gives 0; no cursor gives the count of rows with JS-falsy
`isCurrentUser`; otherwise the cursor scan. -/
def rtsGetUnreadCount (c : ReadCache) (u : String) (o : Nat)
    (db : ReadsDbResult) (messages : List MsgRow) : Nat :=
  if messages.isEmpty then 0
  else
    match (getLastMessageId c u o db).2 with
    | none => (messages.filter (fun m => jsFalsyFlag m.isCurrentUser)).length
    | some lastReadId => rtsScan lastReadId messages false

/-- `chatService.getUnreadCount` (chatService.ts:377-385): fetches the
raw rows of the thread (no `isCurrentUser` field — `toRow`) and hands
them to `readTrackingService.getUnreadCount`. -/
def chatGetUnreadCount (table : List ChatMessage) (c : ReadCache)
    (u : String) (o : Nat) (db : ReadsDbResult) : Nat :=
  rtsGetUnreadCount c u o db ((getMessages table o).map toRow)

/-! ## Thread cache (messageCacheService.ts) -/

/-- One entry of the in-memory message cache
(messageCacheService.ts:5-11). -/
structure CacheEntry where
  messages : List MsgRow
  lastUpdated : Nat
  isSubscribed : Bool
deriving DecidableEq, Repr

/-- State of the `MessageCacheService` singleton
(messageCacheService.ts:13-16), plus the localStorage area holding the
persisted `message_cache_<userId>` snapshots. -/
structure McsState where
  cache : List (Nat × CacheEntry)
  subscriptions : List Nat
  currentUserId : Option String
  localStore : List (String × List (Nat × CacheEntry))
deriving DecidableEq, Repr

/-- The localStorage key `` `message_cache_${userId}` ``
(messageCacheService.ts:27,40,243). -/
def localKey (uid : String) : String := "message_cache_" ++ uid

/-- `getCachedMessages` (messageCacheService.ts:47-49). -/
def mcsGetCachedMessages (s : McsState) (o : Nat) : List MsgRow :=
  ((List.find? (fun e => e.1 = o) s.cache).map (fun e => e.2.messages)).getD []

/-- The cursor scan of `getUnreadCountSync`
(messageCacheService.ts:63-77), textually the same loop as
`readTrackingService.getUnreadCount`. -/
def mcsScan (lastReadId : Nat) : List MsgRow → Bool → Nat
  | [], _ => 0
  | m :: rest, found =>
      if m.id = lastReadId then mcsScan lastReadId rest true
      else if found && jsFalsyFlag m.isCurrentUser then
        mcsScan lastReadId rest found + 1
      else mcsScan lastReadId rest found

/-- `getUnreadCountSync` (messageCacheService.ts:53-78): 0 without a
current user; reads the cached messages and the read-tracking cache; 0
on an empty list; no cursor counts the JS-falsy `isCurrentUser` rows;
otherwise the cursor scan. -/
def mcsGetUnreadCountSync (s : McsState) (rc : ReadCache) (o : Nat) : Nat :=
  match s.currentUserId with
  | none => 0
  | some uid =>
      let messages := mcsGetCachedMessages s o
      let lastReadId := cacheLookup rc uid o
      if messages.isEmpty then 0
      else
        match lastReadId with
        | none => (messages.filter (fun m => jsFalsyFlag m.isCurrentUser)).length
        | some lid => mcsScan lid messages false

/-- `unsubscribeFromOrder` (messageCacheService.ts:190-199): when a
subscription handle exists, drop it and clear the entry's
`isSubscribed` flag (the call to `chatService.unsubscribeFromMessages`
acts on the push transport, modelled separately). -/
def mcsUnsubscribeFromOrder (s : McsState) (o : Nat) : McsState :=
  if o ∈ s.subscriptions then
    { s with
      subscriptions := s.subscriptions.filter (fun x => x ≠ o),
      cache := s.cache.map (fun e =>
        if e.1 = o then (e.1, { e.2 with isSubscribed := false }) else e) }
  else s

/-- `unsubscribeFromAll` (messageCacheService.ts:213-217): iterate over
the subscription keys, unsubscribing each. -/
def mcsUnsubscribeFromAll (s : McsState) : McsState :=
  s.subscriptions.foldl (fun acc o => mcsUnsubscribeFromOrder acc o) s

/-- `clearAllCache` (messageCacheService.ts:237-245): empties the
in-memory cache, unsubscribes from all orders, nulls `currentUserId`,
and only then tests `currentUserId` before removing the persisted
snapshot — so the removal is guarded by an always-false test. -/
def mcsClearAllCache (s : McsState) : McsState :=
  let s1 := { s with cache := [] }
  let s2 := mcsUnsubscribeFromAll s1
  let s3 := { s2 with currentUserId := none }
  match s3.currentUserId with
  | some uid => { s3 with localStore := s3.localStore.filter (fun e => e.1 ≠ localKey uid) }
  | none => s3

/-! ## Polling loop (chatService.startPollingWithInitialId)

One polling loop created by `startPollingWithInitialId`
(chatService.ts:120-181).  A loop holds the closure variables
`isPolling` (`live`), `lastMessageId` and `processedMessageIds`
(`processed`), plus whether a `getMessages` launched by `poll()` is
still awaiting its response (`fetchInFlight`) — the source checks
`isPolling` before the `await`, not after, so an in-flight fetch is
processed even if the loop was stopped meanwhile. -/

structure PollLoop where
  live : Bool
  fetchInFlight : Bool
  lastMessageId : Option Nat
  processed : List (Nat × Nat)
deriving DecidableEq, Repr

/-- The `for (const message of newMessages)` body
(chatService.ts:145-157): deliver each message whose key is not yet in
`processedMessageIds`, adding delivered keys.  Returns the grown set
and the delivered messages in order. -/
def deliverBatch (processed : List (Nat × Nat)) :
    List ChatMessage → List (Nat × Nat) × List ChatMessage
  | [] => (processed, [])
  | m :: rest =>
      if msgKey m ∈ processed then deliverBatch processed rest
      else
        let r := deliverBatch (msgKey m :: processed) rest
        (r.1, m :: r.2)

/-- One resolution of the `await this.getMessages(orderId)` inside
`poll` (chatService.ts:132-172), observing `store` as the thread's
current rows.  Mirrors the source: nothing happens on an empty list
(`lastMessageId` is not updated); otherwise `newMessages` is the rows
with id above a JS-truthy `lastMessageId` (a `null` — and, per JS
truthiness, a zero — high-water-mark selects nothing), the batch is
delivered with dedup, and `lastMessageId` becomes the maximum id seen. -/
def pollProcess (st : PollLoop) (store : List ChatMessage) :
    PollLoop × List ChatMessage :=
  if store.isEmpty then ({ st with fetchInFlight := false }, [])
  else
    let newMessages :=
      match st.lastMessageId with
      | some l => if l ≠ 0 then store.filter (fun m => decide (l < m.id)) else []
      | none => []
    let r := deliverBatch st.processed newMessages
    ({ st with
        processed := r.1,
        lastMessageId := some (maxId store),
        fetchInFlight := false }, r.2)

/-- A freshly started polling loop (chatService.ts:128-130,175):
`isPolling = true`, the given `initialLastMessageId`, an empty
processed set, and the immediately launched first `poll()` fetch. -/
def startPollLoop (initialLastMessageId : Option Nat) : PollLoop :=
  ⟨true, true, initialLastMessageId, []⟩

/-- Run a polling loop through the successive stores observed by its
successive fetches, concatenating the deliveries. -/
def runPoll (st : PollLoop) : List (List ChatMessage) → PollLoop × List ChatMessage
  | [] => (st, [])
  | s :: ss =>
      let r := pollProcess st s
      let r2 := runPoll r.1 ss
      (r2.1, r.2 ++ r2.2)

/-- `initialLastMessageId` computed by `startFallbackPolling`
(chatService.ts:207-214): `null` on an empty list, otherwise the
maximum id. -/
def hwmInit (store : List ChatMessage) : Option Nat :=
  if store.isEmpty then none else some (maxId store)

/-! ## Subscription orchestration (chatService.subscribeToMessages)

The closure state of one `subscribeToMessages` call
(chatService.ts:184-368) and the event-driven execution of its
callbacks.  `loops` holds every polling loop ever started by this
subscription, most recent first; `stopRef` records whether the
`stopPolling` variable currently points at the most recent loop.
`hwmPending` counts in-flight `getMessages` calls launched by
`startFallbackPolling` to establish a high-water-mark.  Deliveries to
`onMessage` are the step outputs; `connectedCount` and `errorCount`
count `onConnected` / `onError` invocations. -/

structure Sub where
  isConnected : Bool
  timerArmed : Bool
  fallbackEnabled : Bool
  hwmPending : Nat
  loops : List PollLoop
  stopRef : Bool
  pushOpen : Bool
  connectedCount : Nat
  errorCount : Nat
deriving DecidableEq, Repr

/-- Events driving one subscription: the connection timer firing, the
push transport's status and insert callbacks, the resolution or
rejection of a high-water-mark fetch, the start (passing the
`isPolling` check) and resolution of one poll fetch, and
`unsubscribeFromMessages`. -/
inductive Ev where
  | timerFire
  | pushSubscribed
  | pushInsert (m : ChatMessage)
  | pushError
  | pushDisconnect
  | hwmResolve (store : List ChatMessage)
  | hwmReject
  | pollStart (i : Nat)
  | pollResolve (i : Nat) (store : List ChatMessage)
  | unsubscribe
deriving DecidableEq, Repr

/-- `startFallbackPolling` (chatService.ts:203-241): launches the
high-water-mark `getMessages` and synchronously fires
`onPollingStarted` and `onConnected`. -/
def subFallback (s : Sub) : Sub :=
  { s with hwmPending := s.hwmPending + 1, connectedCount := s.connectedCount + 1 }

/-- Stops the loop the `stopPolling` variable points at (the most
recently started one): its `isPolling` becomes false. -/
def stopHead : List PollLoop → List PollLoop
  | [] => []
  | l :: ls => { l with live := false } :: ls

/-- `handleConnected` (chatService.ts:243-254): cancel the timer, stop
and null the current polling handle, set `isConnected`, fire
`onConnected`. -/
def handleConnected (s : Sub) : Sub :=
  { s with
    timerArmed := false,
    loops := if s.stopRef then stopHead s.loops else s.loops,
    stopRef := false,
    isConnected := true,
    connectedCount := s.connectedCount + 1 }

/-- `handleDisconnected` (chatService.ts:283-290): clear `isConnected`;
if fallback is enabled and no polling handle is held, start fallback
polling. -/
def handleDisconnected (s : Sub) : Sub :=
  let s1 := { s with isConnected := false }
  if s1.fallbackEnabled && !s1.stopRef then subFallback s1 else s1

/-- One event step of the subscription.  Faithful points: the push
insert callback (chatService.ts:317-326) delivers unconditionally (no
dedup set); `handleError` (chatService.ts:256-281) falls back to
polling only when not connected; a high-water-mark resolution starts a
fresh loop whose first fetch is immediately in flight; a poll
resolution is processed whenever its fetch was in flight, without
re-checking `isPolling`; `unsubscribeFromMessages`
(chatService.ts:371-374) only releases the push transport handle — it
cancels no timer and stops no polling loop. -/
def stepSub (s : Sub) : Ev → Sub × List ChatMessage
  | .timerFire =>
      if s.timerArmed then
        let s1 := { s with timerArmed := false }
        (if !s1.isConnected then subFallback s1 else s1, [])
      else (s, [])
  | .pushSubscribed => if s.pushOpen then (handleConnected s, []) else (s, [])
  | .pushInsert m =>
      if s.pushOpen && s.isConnected then (s, [m]) else (s, [])
  | .pushError =>
      if s.pushOpen then
        if s.fallbackEnabled && !s.isConnected then (subFallback s, [])
        else ({ s with errorCount := s.errorCount + 1 }, [])
      else (s, [])
  | .pushDisconnect => if s.pushOpen then (handleDisconnected s, []) else (s, [])
  | .hwmResolve store =>
      if 0 < s.hwmPending then
        ({ s with
            hwmPending := s.hwmPending - 1,
            loops := startPollLoop (hwmInit store) :: s.loops,
            stopRef := true }, [])
      else (s, [])
  | .hwmReject =>
      if 0 < s.hwmPending then
        ({ s with
            hwmPending := s.hwmPending - 1,
            loops := startPollLoop none :: s.loops,
            stopRef := true }, [])
      else (s, [])
  | .pollStart i =>
      match s.loops[i]? with
      | some l =>
          if l.live && !l.fetchInFlight then
            ({ s with loops := s.loops.set i { l with fetchInFlight := true } }, [])
          else (s, [])
      | none => (s, [])
  | .pollResolve i store =>
      match s.loops[i]? with
      | some l =>
          if l.fetchInFlight then
            let r := pollProcess l store
            ({ s with loops := s.loops.set i r.1 }, r.2)
          else (s, [])
      | none => (s, [])
  | .unsubscribe => ({ s with pushOpen := false }, [])

/-- The state right after `subscribeToMessages` returns: not connected,
the connection timer armed exactly when fallback is enabled
(chatService.ts:293-305), no polling, push handle open. -/
def subInit (fallback : Bool) : Sub :=
  ⟨false, fallback, fallback, 0, [], false, true, 0, 0⟩

/-- Run a subscription through an event trace, concatenating the
`onMessage` deliveries. -/
def runSub (s : Sub) : List Ev → Sub × List ChatMessage
  | [] => (s, [])
  | e :: evs =>
      let r := stepSub s e
      let r2 := runSub r.1 evs
      (r2.1, r.2 ++ r2.2)

/-- The spec's channel states (spec §4.3), derived from the closure
state: connected push is `PushActive`; otherwise an in-flight
high-water-mark fetch or a live polling loop is `Polling`; otherwise
still `Connecting`. -/
inductive ChanState where
  | connecting
  | pushActive
  | polling
  | closed
deriving DecidableEq, Repr

/-- Observation of the channel state from the subscription closure. -/
def chanState (s : Sub) : ChanState :=
  if s.isConnected then ChanState.pushActive
  else if 0 < s.hwmPending || s.loops.any (fun l => l.live) then ChanState.polling
  else ChanState.connecting

/-- Events that can occur while the push transport stays completely
silent and the subscription is not torn down: the timer, high-water-mark
completions, and poll activity. -/
def quietEv : Ev → Bool
  | .timerFire => true
  | .hwmResolve _ => true
  | .hwmReject => true
  | .pollStart _ => true
  | .pollResolve _ _ => true
  | _ => false

/-- Events possible before any high-water-mark fetch has completed. -/
def preHwmEv : Ev → Bool
  | .timerFire => true
  | .pollStart _ => true
  | .pollResolve _ _ => true
  | _ => false

/-- The `message_reads` select outcomes that are durable-store
failures: an error other than row-not-found, or a rejection. -/
def failingReads : ReadsDbResult → Bool
  | .failure => true
  | .thrown => true
  | _ => false

/-- Concrete rows of thread 7 used in the concrete scenarios: two
messages from user B. -/
def msgB1 : ChatMessage := ⟨1, 7, "B", "x", 10⟩

/-- Second message from user B in thread 7. -/
def msgB2 : ChatMessage := ⟨2, 7, "B", "y", 20⟩

/-- A message sent by user A (the current user in the scenarios). -/
def msgA1 : ChatMessage := ⟨1, 7, "A", "hi", 0⟩

/-- A second message sent by user A. -/
def msgA2 : ChatMessage := ⟨2, 7, "A", "more", 5⟩

/-! ## Theorems -/

/-- C1: the facade unread query does not count only messages after the
cursor from other senders.  Concretely: user A marks thread 7 read at
message 1 and then sends message 2 via `sendMessage`; the facade
`getUnreadCount` returns 1 — counting A's own message, because the rows
coming from `getMessages` carry no `isCurrentUser` field and
`!undefined` is true — while the count of messages with id above the
cursor not authored by A is 0.  Before the send the facade returned 0,
so sending as self increased A's own unread count. -/
theorem c1_facade_counts_self :
    chatGetUnreadCount [msgA1] (markAsRead [] "A" 7 1 UpsertResult.ok)
        "A" 7 (ReadsDbResult.row 1) = 0
    ∧ chatGetUnreadCount (sendMessage [msgA1] msgA2)
        (markAsRead [] "A" 7 1 UpsertResult.ok) "A" 7 (ReadsDbResult.row 1) = 1
    ∧ specUnreadCount (sendMessage [msgA1] msgA2) 7 "A" 1 = 0 := by
  decide

/-- C2 counterexample: with a stored cursor id 99 that occurs nowhere in
the single-element cached list, both unread computations return 0, while
the count of cached messages not authored by the current user is 1 — so
neither falls back to counting all non-self messages. -/
theorem c2_counterexample :
    rtsGetUnreadCount [(("A", 7), 99)] "A" 7 ReadsDbResult.failure
        [⟨5, "B", 0, some false⟩] = 0
    ∧ mcsGetUnreadCountSync
        ⟨[(7, ⟨[⟨5, "B", 0, some false⟩], 0, false⟩)], [], some "A", []⟩
        [(("A", 7), 99)] 7 = 0
    ∧ (([⟨5, "B", 0, some false⟩] : List MsgRow).filter
        (fun m => jsFalsyFlag m.isCurrentUser)).length = 1 := by
  decide

/-- The cursor scan returns 0 when the cursor id never occurs and the
flag starts false: every step leaves the flag false and counts
nothing. -/
theorem rtsScan_eq_zero (lid : Nat) :
    ∀ msgs : List MsgRow, (∀ m ∈ msgs, m.id ≠ lid) → rtsScan lid msgs false = 0 := by
  intro msgs
  induction msgs with
  | nil => intro _; rfl
  | cons m rest ih =>
      intro h
      have hm : m.id ≠ lid := h m (List.mem_cons_self m rest)
      have hr : ∀ x ∈ rest, x.id ≠ lid := fun x hx => h x (List.mem_cons_of_mem m hx)
      simp [rtsScan, hm, ih hr]

/-- Same fact for the textually duplicated scan in
`messageCacheService.getUnreadCountSync`. -/
theorem mcsScan_eq_zero (lid : Nat) :
    ∀ msgs : List MsgRow, (∀ m ∈ msgs, m.id ≠ lid) → mcsScan lid msgs false = 0 := by
  intro msgs
  induction msgs with
  | nil => intro _; rfl
  | cons m rest ih =>
      intro h
      have hm : m.id ≠ lid := h m (List.mem_cons_self m rest)
      have hr : ∀ x ∈ rest, x.id ≠ lid := fun x hx => h x (List.mem_cons_of_mem m hx)
      simp [mcsScan, hm, ih hr]

/-- C2 (amended): when a cursor id is stored but does not occur among
the cached messages, both unread computations return 0 — the
count-all-non-self fallback applies only when no cursor is stored at
all. -/
theorem c2_cursor_missing_counts_zero :
    (∀ (c : ReadCache) (u : String) (o : Nat) (db : ReadsDbResult)
        (msgs : List MsgRow) (lid : Nat),
      (getLastMessageId c u o db).2 = some lid →
      (∀ m ∈ msgs, m.id ≠ lid) →
      rtsGetUnreadCount c u o db msgs = 0)
    ∧ (∀ (s : McsState) (rc : ReadCache) (o : Nat) (uid : String) (lid : Nat),
      s.currentUserId = some uid →
      cacheLookup rc uid o = some lid →
      (∀ m ∈ mcsGetCachedMessages s o, m.id ≠ lid) →
      mcsGetUnreadCountSync s rc o = 0) := by
  constructor
  · intro c u o db msgs lid hdb hne
    unfold rtsGetUnreadCount
    rw [hdb]
    by_cases hmsgs : msgs.isEmpty
    · simp [hmsgs]
    · simp [hmsgs, rtsScan_eq_zero lid msgs hne]
  · intro s rc o uid lid huid hlook hne
    unfold mcsGetUnreadCountSync
    rw [huid]
    simp only [hlook]
    by_cases hmsgs : (mcsGetCachedMessages s o).isEmpty
    · simp [hmsgs]
    · simp [hmsgs, mcsScan_eq_zero lid _ hne]

/-- Witness for C2's amended theorem at the concrete inputs of the
counterexample. -/
theorem c2_witness :
    rtsGetUnreadCount [(("A", 7), 99)] "A" 7 ReadsDbResult.failure
        [⟨5, "B", 0, some false⟩] = 0
    ∧ mcsGetUnreadCountSync
        ⟨[(7, ⟨[⟨5, "B", 0, some false⟩], 0, false⟩)], [], some "A", []⟩
        [(("A", 7), 99)] 7 = 0 :=
  ⟨c2_cursor_missing_counts_zero.1 [(("A", 7), 99)] "A" 7 ReadsDbResult.failure
      [⟨5, "B", 0, some false⟩] 99 (by decide) (by decide),
   c2_cursor_missing_counts_zero.2
      ⟨[(7, ⟨[⟨5, "B", 0, some false⟩], 0, false⟩)], [], some "A", []⟩
      [(("A", 7), 99)] 7 "A" 99 rfl (by decide) (by decide)⟩

/-- C3 counterexample: the connection timer fires, the high-water-mark
fetch observes only message 1 and the first poll fetch goes out; push
then connects (stopping the loop, but not the in-flight fetch), delivers
message 2 via the insert callback, and the in-flight poll fetch resolves
observing the same row — message 2 reaches `onMessage` twice within one
subscription, because the poll loop's dedup set never sees push
deliveries and the loop does not re-check `isPolling` after its
`await`. -/
theorem c3_counterexample :
    ((runSub (subInit true)
        [Ev.timerFire, Ev.hwmResolve [msgB1], Ev.pushSubscribed,
         Ev.pushInsert msgB2, Ev.pollResolve 0 [msgB1, msgB2]]).2).count msgB2
      = 2 := by
  decide

/-- C4 counterexample: message 2 is appended strictly after subscribe
was called and before the first poll fires — but before the
high-water-mark fetch resolves, so that fetch observes it and sets the
high-water-mark to 2.  The first poll (and every later one) filters for
ids above 2, so message 2 is delivered zero times, not exactly once. -/
theorem c4_counterexample :
    (runSub (subInit true)
        [Ev.timerFire, Ev.hwmResolve [msgB1, msgB2],
         Ev.pollResolve 0 [msgB1, msgB2], Ev.pollStart 0,
         Ev.pollResolve 0 [msgB1, msgB2]]).2 = [] := by
  decide

/-- C5: after `unsubscribeFromMessages` returns (it only releases a push
transport handle — it cancels no timer and never calls the poll loop's
stop function), the in-flight poll fetch of a channel in the Polling
state resolves and still invokes `onMessage`: message 2 is delivered
strictly after the unsubscribe.  Double unsubscribe itself is a no-op. -/
theorem c5_delivery_after_unsubscribe :
    (runSub (runSub (subInit true)
        [Ev.timerFire, Ev.hwmResolve [msgB1], Ev.unsubscribe]).1
      [Ev.pollResolve 0 [msgB1, msgB2]]).2 = [msgB2]
    ∧ (stepSub (stepSub (runSub (subInit true)
        [Ev.timerFire, Ev.hwmResolve [msgB1]]).1 Ev.unsubscribe).1
          Ev.unsubscribe).1
      = (stepSub (runSub (subInit true)
        [Ev.timerFire, Ev.hwmResolve [msgB1]]).1 Ev.unsubscribe).1 := by
  decide

/-- `mcsUnsubscribeFromOrder` only touches `subscriptions` and the
`isSubscribed` flags: `currentUserId`, `localStore`, and an empty cache
are preserved. -/
theorem unsubscribeFromOrder_frame (s : McsState) (o : Nat) :
    (mcsUnsubscribeFromOrder s o).currentUserId = s.currentUserId
    ∧ (mcsUnsubscribeFromOrder s o).localStore = s.localStore
    ∧ (s.cache = [] → (mcsUnsubscribeFromOrder s o).cache = []) := by
  unfold mcsUnsubscribeFromOrder
  by_cases h : o ∈ s.subscriptions <;> simp [h]

/-- After `mcsUnsubscribeFromOrder s o`, the order `o` no longer
appears, and the subscriptions stay within the original ones. -/
theorem unsubscribeFromOrder_subs (s : McsState) (o : Nat) :
    o ∉ (mcsUnsubscribeFromOrder s o).subscriptions
    ∧ (mcsUnsubscribeFromOrder s o).subscriptions ⊆ s.subscriptions := by
  unfold mcsUnsubscribeFromOrder
  by_cases h : o ∈ s.subscriptions
  · simp [h]
  · simp [h]

/-- Folding `mcsUnsubscribeFromOrder` over a list covering all current
subscriptions empties the subscription map and frames everything
else. -/
theorem foldl_unsubscribe (l : List Nat) :
    ∀ s : McsState, s.subscriptions ⊆ l →
      (l.foldl (fun acc o => mcsUnsubscribeFromOrder acc o) s).subscriptions = []
      ∧ (l.foldl (fun acc o => mcsUnsubscribeFromOrder acc o) s).currentUserId
          = s.currentUserId
      ∧ (l.foldl (fun acc o => mcsUnsubscribeFromOrder acc o) s).localStore
          = s.localStore
      ∧ (s.cache = [] →
          (l.foldl (fun acc o => mcsUnsubscribeFromOrder acc o) s).cache = []) := by
  induction l with
  | nil =>
      intro s hsub
      have : s.subscriptions = [] := List.subset_nil.mp hsub
      simp [this]
  | cons o rest ih =>
      intro s hsub
      have hstep := unsubscribeFromOrder_subs s o
      have hframe := unsubscribeFromOrder_frame s o
      have hsub2 : (mcsUnsubscribeFromOrder s o).subscriptions ⊆ rest := by
        intro x hx
        have hxs : x ∈ s.subscriptions := hstep.2 hx
        have hxor : x ∈ o :: rest := hsub hxs
        rcases List.mem_cons.mp hxor with h | h
        · exact absurd (h ▸ hx) hstep.1
        · exact h
      have hrec := ih (mcsUnsubscribeFromOrder s o) hsub2
      refine ⟨hrec.1, ?_, ?_, ?_⟩
      · rw [List.foldl_cons] at *
        exact hrec.2.1.trans hframe.1
      · rw [List.foldl_cons] at *
        exact hrec.2.2.1.trans hframe.2.1
      · intro hc
        rw [List.foldl_cons] at *
        exact hrec.2.2.2 (hframe.2.2 hc)

/-- C10: `clearAllCache` empties the in-memory cache, removes every
subscription and nulls the current user, but leaves the persisted
`message_cache_<userId>` snapshot untouched — `currentUserId` is set to
null before the guarded `localStorage.removeItem`, so the removal never
runs. -/
theorem c10_clearAllCache (s : McsState) :
    (mcsClearAllCache s).cache = []
    ∧ (mcsClearAllCache s).subscriptions = []
    ∧ (mcsClearAllCache s).currentUserId = none
    ∧ (mcsClearAllCache s).localStore = s.localStore := by
  have h := foldl_unsubscribe ({ s with cache := [] } : McsState).subscriptions
    { s with cache := [] } (fun x hx => hx)
  unfold mcsClearAllCache mcsUnsubscribeFromAll
  refine ⟨?_, ?_, ?_, ?_⟩
  · simpa using h.2.2.2 rfl
  · simpa using h.1
  · rfl
  · simpa using h.2.2.1

/-- C8: a durable-store failure never propagates from `markAsRead` or
`getLastMessageId`.  For every cache state, every upsert outcome, and
every failing select outcome: `markAsRead` records the cursor in the
local cache (and, being total, returns normally), and `getLastMessageId`
returns the value last set via `markAsRead` in the session, not an
error. -/
theorem c8_cache_fallback (c : ReadCache) (u : String) (o mid : Nat)
    (up : UpsertResult) (db : ReadsDbResult) (h : failingReads db = true) :
    cacheLookup (markAsRead c u o mid up) u o = some mid
    ∧ (getLastMessageId (markAsRead c u o mid up) u o db).2 = some mid := by
  have hmk : markAsRead c u o mid up = updateCache c u o mid := by
    cases up <;> rfl
  have hlook : cacheLookup (updateCache c u o mid) u o = some mid := by
    simp [cacheLookup, updateCache, List.find?]
  refine ⟨hmk ▸ hlook, ?_⟩
  cases db with
  | row _ => simp [failingReads] at h
  | noRow => simp [failingReads] at h
  | failure => simpa [getLastMessageId, hmk] using hlook
  | thrown => simpa [getLastMessageId, hmk] using hlook

/-- Witness for C8 at concrete inputs: a failed upsert followed by a
failing select still yields the cursor set in the session. -/
theorem c8_witness :
    cacheLookup (markAsRead [] "A" 7 5 UpsertResult.failed) "A" 7 = some 5
    ∧ (getLastMessageId (markAsRead [] "A" 7 5 UpsertResult.failed) "A" 7
        ReadsDbResult.failure).2 = some 5 :=
  c8_cache_fallback [] "A" 7 5 UpsertResult.failed ReadsDbResult.failure (by decide)

/-- Membership in a stable insertion. -/
theorem mem_insertByCA (x y : ChatMessage) :
    ∀ l : List ChatMessage, y ∈ insertByCA x l ↔ y = x ∨ y ∈ l := by
  intro l
  induction l with
  | nil => simp [insertByCA]
  | cons z zs ih =>
      by_cases hc : x.created_at ≤ z.created_at
      · simp [insertByCA, hc, List.mem_cons]
        try tauto
      · simp [insertByCA, hc, List.mem_cons, ih]
        try tauto

/-- Stable insertion is a permutation of consing. -/
theorem insertByCA_perm (x : ChatMessage) :
    ∀ l : List ChatMessage, (insertByCA x l).Perm (x :: l) := by
  intro l
  induction l with
  | nil => simp [insertByCA]
  | cons z zs ih =>
      by_cases hc : x.created_at ≤ z.created_at
      · simp [insertByCA, hc]
      · have hgoal : insertByCA x (z :: zs) = z :: insertByCA x zs := by
          simp [insertByCA, hc]
        rw [hgoal]
        exact (ih.cons z).trans (List.Perm.swap x z zs)

/-- The stable sort permutes its input. -/
theorem sortByCA_perm : ∀ l : List ChatMessage, (sortByCA l).Perm l := by
  intro l
  induction l with
  | nil => simp [sortByCA]
  | cons x xs ih =>
      exact (insertByCA_perm x (sortByCA xs)).trans (ih.cons x)

/-- Inserting an element that beats every equal-timestamp element on id
preserves the created-at / id ordering. -/
theorem insertByCA_pairwise (x : ChatMessage) :
    ∀ l : List ChatMessage, l.Pairwise caIdOrder →
      (∀ y ∈ l, x.created_at = y.created_at → x.id < y.id) →
      (insertByCA x l).Pairwise caIdOrder := by
  intro l
  induction l with
  | nil =>
      intro _ _
      simp [insertByCA, caIdOrder]
  | cons z zs ih =>
      intro hp hx
      rw [List.pairwise_cons] at hp
      by_cases hc : x.created_at ≤ z.created_at
      · have hgoal : insertByCA x (z :: zs) = x :: z :: zs := by
          simp [insertByCA, hc]
        rw [hgoal, List.pairwise_cons]
        refine ⟨?_, List.pairwise_cons.mpr hp⟩
        intro w hw
        rcases List.mem_cons.mp hw with rfl | hwz
        · rcases lt_or_eq_of_le hc with h | h
          · exact Or.inl h
          · exact Or.inr ⟨h, hx w (List.mem_cons_self w zs) h⟩
        · have hzw := hp.1 w hwz
          have hle : z.created_at ≤ w.created_at := by
            rcases hzw with h | h
            · exact le_of_lt h
            · exact le_of_eq h.1
          rcases lt_or_eq_of_le (le_trans hc hle) with h | h
          · exact Or.inl h
          · exact Or.inr ⟨h, hx w (List.mem_cons_of_mem z hwz) h⟩
      · have hgoal : insertByCA x (z :: zs) = z :: insertByCA x zs := by
          simp [insertByCA, hc]
        rw [hgoal, List.pairwise_cons]
        constructor
        · intro w hw
          rcases (mem_insertByCA x w zs).mp hw with rfl | hwz
          · exact Or.inl (not_le.mp hc)
          · exact hp.1 w hwz
        · exact ih hp.2 (fun y hy he => hx y (List.mem_cons_of_mem z hy) he)

/-- Stable sort of a list whose equal-timestamp elements are already in
id order yields the full created-at / id ordering. -/
theorem sortByCA_pairwise :
    ∀ l : List ChatMessage,
      l.Pairwise (fun a b => a.created_at = b.created_at → a.id < b.id) →
      (sortByCA l).Pairwise caIdOrder := by
  intro l
  induction l with
  | nil =>
      intro _
      simp [sortByCA]
  | cons x xs ih =>
      intro hp
      rw [List.pairwise_cons] at hp
      show (insertByCA x (sortByCA xs)).Pairwise caIdOrder
      exact insertByCA_pairwise x (sortByCA xs) (ih hp.2)
        (fun y hy he => hp.1 y ((sortByCA_perm xs).mem_iff.mp hy) he)

/-- C6: for a `messages` table whose server-assigned ids are strictly
increasing in insertion order, `getMessages` returns exactly the
thread's rows (a permutation of the filter), in non-decreasing
`created_at` order with equal timestamps in insertion-id order. -/
theorem c6_getMessages_sorted (table : List ChatMessage) (o : Nat)
    (h : table.Pairwise (fun a b => a.id < b.id)) :
    (getMessages table o).Perm (table.filter (fun m => m.order_id == o))
    ∧ (getMessages table o).Pairwise caIdOrder := by
  refine ⟨sortByCA_perm _, ?_⟩
  have h2 : (table.filter (fun m => m.order_id == o)).Pairwise
      (fun a b => a.id < b.id) := h.filter (fun m => m.order_id == o)
  apply sortByCA_pairwise
  exact h2.imp (fun {a b} hab (_ : a.created_at = b.created_at) => hab)

/-- Witness for C6: a table with a `created_at` tie between ids 2 and 3
comes back ordered by timestamp with the tie in id order. -/
theorem c6_witness :
    ([msgA1, msgA2, ⟨3, 7, "B", "z", 5⟩] : List ChatMessage).Pairwise
        (fun a b => a.id < b.id)
    ∧ ((getMessages [msgA1, msgA2, ⟨3, 7, "B", "z", 5⟩] 7).Perm
          (([msgA1, msgA2, ⟨3, 7, "B", "z", 5⟩] : List ChatMessage).filter
            (fun m => m.order_id == 7))
        ∧ (getMessages [msgA1, msgA2, ⟨3, 7, "B", "z", 5⟩] 7).Pairwise caIdOrder) :=
  ⟨by decide, c6_getMessages_sorted [msgA1, msgA2, ⟨3, 7, "B", "z", 5⟩] 7 (by decide)⟩

/-- Delivered messages come from the fetched batch. -/
theorem deliverBatch_mem_sub :
    ∀ (p : List (Nat × Nat)) (ms : List ChatMessage) (m : ChatMessage),
      m ∈ (deliverBatch p ms).2 → m ∈ ms := by
  intro p ms
  induction ms generalizing p with
  | nil => intro m h; simp [deliverBatch] at h
  | cons x rest ih =>
      intro m h
      by_cases hk : msgKey x ∈ p
      · simp only [deliverBatch, if_pos hk] at h
        exact List.mem_cons_of_mem x (ih p m h)
      · simp only [deliverBatch, if_neg hk] at h
        rcases List.mem_cons.mp h with rfl | h2
        · exact List.mem_cons_self m rest
        · exact List.mem_cons_of_mem x (ih _ m h2)

/-- A delivered message's key was not in the processed set. -/
theorem deliverBatch_not_mem :
    ∀ (p : List (Nat × Nat)) (ms : List ChatMessage) (m : ChatMessage),
      m ∈ (deliverBatch p ms).2 → msgKey m ∉ p := by
  intro p ms
  induction ms generalizing p with
  | nil => intro m h; simp [deliverBatch] at h
  | cons x rest ih =>
      intro m h
      by_cases hk : msgKey x ∈ p
      · simp only [deliverBatch, if_pos hk] at h
        exact ih p m h
      · simp only [deliverBatch, if_neg hk] at h
        rcases List.mem_cons.mp h with rfl | h2
        · exact hk
        · intro hp
          exact ih _ m h2 (List.mem_cons_of_mem _ hp)

/-- The processed set only grows. -/
theorem deliverBatch_processed_mono :
    ∀ (p : List (Nat × Nat)) (ms : List ChatMessage) (k : Nat × Nat),
      k ∈ p → k ∈ (deliverBatch p ms).1 := by
  intro p ms
  induction ms generalizing p with
  | nil => intro k hk; simpa [deliverBatch] using hk
  | cons x rest ih =>
      intro k hk
      by_cases hx : msgKey x ∈ p
      · simp only [deliverBatch, if_pos hx]
        exact ih p k hk
      · simp only [deliverBatch, if_neg hx]
        exact ih _ k (List.mem_cons_of_mem _ hk)

/-- Delivered keys end up in the processed set. -/
theorem deliverBatch_delivered_processed :
    ∀ (p : List (Nat × Nat)) (ms : List ChatMessage) (m : ChatMessage),
      m ∈ (deliverBatch p ms).2 → msgKey m ∈ (deliverBatch p ms).1 := by
  intro p ms
  induction ms generalizing p with
  | nil => intro m h; simp [deliverBatch] at h
  | cons x rest ih =>
      intro m h
      by_cases hx : msgKey x ∈ p
      · simp only [deliverBatch, if_pos hx] at h ⊢
        exact ih p m h
      · simp only [deliverBatch, if_neg hx] at h ⊢
        rcases List.mem_cons.mp h with rfl | h2
        · exact deliverBatch_processed_mono _ rest (msgKey m)
            (List.mem_cons_self (msgKey m) p)
        · exact ih _ m h2

/-- Within one batch, delivered keys are pairwise distinct. -/
theorem deliverBatch_keys_nodup :
    ∀ (p : List (Nat × Nat)) (ms : List ChatMessage),
      ((deliverBatch p ms).2.map msgKey).Nodup := by
  intro p ms
  induction ms generalizing p with
  | nil => simp [deliverBatch]
  | cons x rest ih =>
      by_cases hx : msgKey x ∈ p
      · simp only [deliverBatch, if_pos hx]
        exact ih p
      · simp only [deliverBatch, if_neg hx, List.map_cons, List.nodup_cons]
        refine ⟨?_, ih _⟩
        intro hmem
        rcases List.mem_map.mp hmem with ⟨m, hm, hkey⟩
        exact deliverBatch_not_mem _ rest m hm
          (hkey ▸ List.mem_cons_self (msgKey x) p)

/-- A fresh message whose key identifies it uniquely in the batch is
delivered exactly once. -/
theorem deliverBatch_count_one :
    ∀ (p : List (Nat × Nat)) (ms : List ChatMessage) (m : ChatMessage),
      msgKey m ∉ p → m ∈ ms → (∀ x ∈ ms, msgKey x = msgKey m → x = m) →
      (deliverBatch p ms).2.count m = 1 := by
  intro p ms
  induction ms generalizing p with
  | nil => intro m _ hm _; simp at hm
  | cons x rest ih =>
      intro m hp hm hid
      by_cases hxm : x = m
      · subst hxm
        simp only [deliverBatch, if_neg hp]
        have hzero : (deliverBatch (msgKey x :: p) rest).2.count x = 0 := by
          rw [List.count_eq_zero]
          intro hmem
          exact deliverBatch_not_mem _ rest x hmem
            (List.mem_cons_self (msgKey x) p)
        simp [List.count_cons, hzero]
      · have hm2 : m ∈ rest := by
          rcases List.mem_cons.mp hm with h | h
          · exact absurd h.symm hxm
          · exact h
        have hid2 : ∀ y ∈ rest, msgKey y = msgKey m → y = m :=
          fun y hy => hid y (List.mem_cons_of_mem x hy)
        by_cases hx : msgKey x ∈ p
        · simp only [deliverBatch, if_pos hx]
          exact ih p m hp hm2 hid2
        · have hkne : msgKey m ≠ msgKey x := by
            intro he
            exact hxm (hid x (List.mem_cons_self x rest) he.symm)
          simp only [deliverBatch, if_neg hx]
          have hp2 : msgKey m ∉ msgKey x :: p := by
            intro hmem
            rcases List.mem_cons.mp hmem with h | h
            · exact hkne h
            · exact hp h
          have := ih (msgKey x :: p) m hp2 hm2 hid2
          simp [List.count_cons, this, Ne.symm hxm]

/-- Every member's id is bounded by the batch maximum. -/
theorem le_maxId_of_mem :
    ∀ (s : List ChatMessage) (m : ChatMessage), m ∈ s → m.id ≤ maxId s := by
  intro s
  induction s with
  | nil => intro m h; simp at h
  | cons x rest ih =>
      intro m h
      rcases List.mem_cons.mp h with rfl | h2
      · exact le_max_left _ _
      · exact le_trans (ih m h2) (le_max_right _ _)

/-- `maxId` is monotone under sublists (append-only store growth). -/
theorem maxId_sublist {s t : List ChatMessage} (h : s.Sublist t) :
    maxId s ≤ maxId t := by
  induction h with
  | slnil => exact le_refl _
  | cons a h ih => exact le_trans ih (le_max_right _ _)
  | cons₂ a h ih => exact max_le_max (le_refl _) ih

/-- `pollProcess` never touches the `isPolling` flag. -/
theorem pollProcess_live (st : PollLoop) (s : List ChatMessage) :
    (pollProcess st s).1.live = st.live := by
  unfold pollProcess
  split <;> rfl

/-- `lastMessageId` after one poll: unchanged on an empty fetch,
otherwise the maximum id observed. -/
theorem pollProcess_last (st : PollLoop) (s : List ChatMessage) :
    (pollProcess st s).1.lastMessageId =
      if s.isEmpty then st.lastMessageId else some (maxId s) := by
  unfold pollProcess
  split <;> simp_all

/-- The processed set grows across one poll. -/
theorem pollProcess_processed_mono (st : PollLoop) (s : List ChatMessage)
    (k : Nat × Nat) (hk : k ∈ st.processed) :
    k ∈ (pollProcess st s).1.processed := by
  unfold pollProcess
  split
  · exact hk
  · exact deliverBatch_processed_mono _ _ k hk

/-- What one poll delivery implies: the loop held a JS-truthy
high-water-mark below the message's id, the message was in the observed
store, its key was fresh, and its key is recorded afterwards. -/
theorem pollProcess_deliver_facts (st : PollLoop) (s : List ChatMessage)
    (m : ChatMessage) (h : m ∈ (pollProcess st s).2) :
    (∃ l, st.lastMessageId = some l ∧ l ≠ 0 ∧ l < m.id ∧ m ∈ s)
    ∧ msgKey m ∉ st.processed
    ∧ msgKey m ∈ (pollProcess st s).1.processed := by
  revert h
  unfold pollProcess
  split
  · intro h; simp at h
  · rcases hl : st.lastMessageId with _ | l
    · simp only [hl]
      intro h
      simp [deliverBatch] at h
    · simp only [hl]
      by_cases hl0 : l ≠ 0
      · simp only [if_pos hl0]
        intro h
        have hmem := deliverBatch_mem_sub _ _ m h
        have hf := List.mem_filter.mp hmem
        exact ⟨⟨l, rfl, hl0, by simpa using hf.2, hf.1⟩,
          deliverBatch_not_mem _ _ m h,
          deliverBatch_delivered_processed _ _ m h⟩
      · simp only [if_neg hl0]
        intro h
        simp [deliverBatch] at h

/-- Keys delivered by one poll are pairwise distinct. -/
theorem pollProcess_keys_nodup (st : PollLoop) (s : List ChatMessage) :
    ((pollProcess st s).2.map msgKey).Nodup := by
  unfold pollProcess
  split
  · simp
  · exact deliverBatch_keys_nodup _ _

/-- The processed set grows across a whole run. -/
theorem runPoll_processed_mono :
    ∀ (ss : List (List ChatMessage)) (st : PollLoop) (k : Nat × Nat),
      k ∈ st.processed → k ∈ (runPoll st ss).1.processed := by
  intro ss
  induction ss with
  | nil => intro st k hk; exact hk
  | cons s rest ih =>
      intro st k hk
      exact ih _ k (pollProcess_processed_mono st s k hk)

/-- A message delivered anywhere in a run had a fresh key at the start
of the run. -/
theorem runPoll_not_mem_processed :
    ∀ (ss : List (List ChatMessage)) (st : PollLoop) (m : ChatMessage),
      m ∈ (runPoll st ss).2 → msgKey m ∉ st.processed := by
  intro ss
  induction ss with
  | nil => intro st m h; simp [runPoll] at h
  | cons s rest ih =>
      intro st m h
      simp only [runPoll] at h
      rcases List.mem_append.mp h with h1 | h2
      · exact (pollProcess_deliver_facts st s m h1).2.1
      · intro hp
        exact ih _ m h2 (pollProcess_processed_mono st s (msgKey m) hp)

/-- C3 (amended): dedup holds within a single polling loop — across any
sequence of poll fetches, the `(id, created_at)` keys delivered by one
loop are pairwise distinct, so a row delivered by the loop is never
re-delivered by that same loop.  (The push insert callback shares no
such state, which is what the counterexample exploits.) -/
theorem c3_poll_loop_dedup (st : PollLoop) :
    ∀ ss : List (List ChatMessage), ((runPoll st ss).2.map msgKey).Nodup := by
  intro ss
  induction ss generalizing st with
  | nil => simp [runPoll]
  | cons s rest ih =>
      simp only [runPoll, List.map_append]
      rw [List.nodup_append]
      refine ⟨pollProcess_keys_nodup st s, ih _, ?_⟩
      intro k hk1 hk2
      rcases List.mem_map.mp hk1 with ⟨m1, hm1, hkey1⟩
      rcases List.mem_map.mp hk2 with ⟨m2, hm2, hkey2⟩
      have hin : msgKey m1 ∈ (pollProcess st s).1.processed :=
        (pollProcess_deliver_facts st s m1 hm1).2.2
      have hout : msgKey m2 ∉ (pollProcess st s).1.processed :=
        runPoll_not_mem_processed rest _ m2 hm2
      rw [hkey1] at hin
      rw [hkey2] at hout
      exact hout hin

/-- Deliveries stay above a bound that the loop's high-water-mark never
drops below: if the current `lastMessageId` (when set) is at least `n`
and every observed store is empty or has maximum id at least `n`, every
delivered message has id above `n`. -/
theorem runPoll_deliver_gt (n : Nat) :
    ∀ (ss : List (List ChatMessage)) (st : PollLoop),
      (st.lastMessageId = none ∨ ∃ l, st.lastMessageId = some l ∧ n ≤ l) →
      (∀ s ∈ ss, s.isEmpty = true ∨ n ≤ maxId s) →
      ∀ m ∈ (runPoll st ss).2, n < m.id := by
  intro ss
  induction ss with
  | nil => intro st _ _ m h; simp [runPoll] at h
  | cons s rest ih =>
      intro st hinv hstores m h
      simp only [runPoll] at h
      rcases List.mem_append.mp h with h1 | h2
      · rcases (pollProcess_deliver_facts st s m h1).1 with ⟨l, hl, _, hlt, _⟩
        rcases hinv with hnone | ⟨l', hl', hle⟩
        · rw [hnone] at hl; cases hl
        · rw [hl'] at hl
          cases hl
          exact lt_of_le_of_lt hle hlt
      · refine ih _ ?_ (fun t ht => hstores t (List.mem_cons_of_mem s ht)) m h2
        rw [pollProcess_last]
        by_cases hs : s.isEmpty
        · rw [if_pos hs]; exact hinv
        · rw [if_neg hs]
          rcases hstores s (List.mem_cons_self s rest) with h | h
          · exact absurd h hs
          · exact Or.inr ⟨maxId s, rfl, h⟩

/-- In a chain of sublists, the head is a sublist of every later
element. -/
theorem chain_sublist_head :
    ∀ (ls : List (List ChatMessage)) (x : List ChatMessage),
      List.Chain' List.Sublist (x :: ls) → ∀ y ∈ ls, x.Sublist y := by
  intro ls
  induction ls with
  | nil => intro x _ y hy; simp at hy
  | cons z zs ih =>
      intro x hch y hy
      rw [List.chain'_cons] at hch
      rcases List.mem_cons.mp hy with rfl | h2
      · exact hch.1
      · exact hch.1.trans (ih z hch.2 y h2)

/-- C9: a poll loop started with `initialLastMessageId = null` delivers
nothing from its first fetch, whatever the store holds — the `null`
high-water-mark selects no messages while the maximum observed id is
recorded — and on an append-only store (each fetch observes a superset
of the first), every message the loop ever delivers has id strictly
above the maximum id the first fetch observed. -/
theorem c9_null_initial_poll :
    (∀ s : List ChatMessage, (pollProcess (startPollLoop none) s).2 = [])
    ∧ ∀ (s1 : List ChatMessage) (ss : List (List ChatMessage)),
        List.Chain' List.Sublist (s1 :: ss) →
        ∀ m ∈ (runPoll (startPollLoop none) (s1 :: ss)).2, maxId s1 < m.id := by
  constructor
  · intro s
    unfold pollProcess startPollLoop
    split <;> simp [deliverBatch]
  · intro s1 ss hch
    apply runPoll_deliver_gt (maxId s1)
    · exact Or.inl rfl
    · intro s hs
      rcases List.mem_cons.mp hs with rfl | h2
      · exact Or.inr (le_refl _)
      · exact Or.inr (maxId_sublist (chain_sublist_head ss s1 hch s h2))

/-- Witness for C9: concretely, the first fetch over `[msgB1, msgB2]`
delivers nothing, and on the trace whose first fetch sees `[msgB1]` the
later-delivered `msgB2` has id above that first maximum. -/
theorem c9_witness :
    (pollProcess (startPollLoop none) [msgB1, msgB2]).2 = []
    ∧ maxId [msgB1] < msgB2.id :=
  ⟨c9_null_initial_poll.1 [msgB1, msgB2],
   c9_null_initial_poll.2 [msgB1] [[msgB1, msgB2]]
     (List.chain'_cons.mpr
       ⟨(List.nil_sublist [msgB2]).cons₂ msgB1, List.chain'_singleton _⟩)
     msgB2 (by decide)⟩

/-- Computation rule for a poll over a nonempty store with a JS-truthy
high-water-mark. -/
theorem pollProcess_truthy (st : PollLoop) (s : List ChatMessage) (l : Nat)
    (hl : st.lastMessageId = some l) (hl0 : l ≠ 0) (hs : s.isEmpty = false) :
    pollProcess st s =
      ({ st with
          processed :=
            (deliverBatch st.processed (s.filter (fun m => decide (l < m.id)))).1,
          lastMessageId := some (maxId s),
          fetchInFlight := false },
        (deliverBatch st.processed (s.filter (fun m => decide (l < m.id)))).2) := by
  unfold pollProcess
  rw [hs, hl]
  simp [hl0]

/-- C4 (amended): no-loss holds from the high-water-mark fetch onwards,
not from `subscribe()`.  If the fallback's high-water-mark fetch
observed store `s0` (nonempty, with a nonzero maximum id), then a
message `m` appended after that fetch (`maxId s0 < m.id`, its id unique
in the store) and present from the first poll onwards (append-only
store growth) is delivered exactly once by the polling loop. -/
theorem c4_after_hwm_exactly_once (s0 s1 : List ChatMessage)
    (ss : List (List ChatMessage)) (m : ChatMessage)
    (h0 : 0 < maxId s0) (h1 : maxId s0 < m.id) (h2 : m ∈ s1)
    (hid : ∀ x ∈ s1, msgKey x = msgKey m → x = m)
    (hch : List.Chain' List.Sublist (s1 :: ss)) :
    ((runPoll (startPollLoop (hwmInit s0)) (s1 :: ss)).2).count m = 1 := by
  have hs0 : s0.isEmpty = false := by
    cases he : s0.isEmpty
    · rfl
    · rw [List.isEmpty_iff] at he
      rw [he] at h0
      simp [maxId] at h0
  have hwm : hwmInit s0 = some (maxId s0) := by
    unfold hwmInit
    rw [hs0]
    rfl
  have hs1 : s1.isEmpty = false := by
    cases he : s1.isEmpty
    · rfl
    · rw [List.isEmpty_iff] at he
      rw [he] at h2
      simp at h2
  have hstep := pollProcess_truthy (startPollLoop (hwmInit s0)) s1 (maxId s0)
    (by rw [hwm]; rfl) (Nat.pos_iff_ne_zero.mp h0) hs1
  simp only [runPoll, hstep, List.count_append]
  have hmf : m ∈ s1.filter (fun x => decide (maxId s0 < x.id)) :=
    List.mem_filter.mpr ⟨h2, by simpa using h1⟩
  have hone : (deliverBatch (startPollLoop (hwmInit s0)).processed
      (s1.filter (fun x => decide (maxId s0 < x.id)))).2.count m = 1 := by
    apply deliverBatch_count_one _ _ m (by simp [startPollLoop]) hmf
    intro x hx
    exact hid x (List.mem_filter.mp hx).1
  have hzero : ((runPoll
      ({ startPollLoop (hwmInit s0) with
          processed :=
            (deliverBatch (startPollLoop (hwmInit s0)).processed
              (s1.filter (fun x => decide (maxId s0 < x.id)))).1,
          lastMessageId := some (maxId s1),
          fetchInFlight := false }) ss).2).count m = 0 := by
    rw [List.count_eq_zero]
    intro hmem
    have := runPoll_deliver_gt m.id ss _
      (Or.inr ⟨maxId s1, rfl, le_maxId_of_mem s1 m h2⟩)
      (fun t ht => Or.inr
        (le_trans (le_maxId_of_mem s1 m h2)
          (maxId_sublist (chain_sublist_head ss s1 hch t ht))))
      m hmem
    exact lt_irrefl _ this
  rw [hone, hzero]

/-- Witness for C4's amended theorem: high-water-mark store `[msgB1]`,
then two polls both observing `[msgB1, msgB2]` — `msgB2` is delivered
exactly once. -/
theorem c4_witness :
    ((runPoll (startPollLoop (hwmInit [msgB1])) [[msgB1, msgB2], [msgB1, msgB2]]).2).count
      msgB2 = 1 :=
  c4_after_hwm_exactly_once [msgB1] [msgB1, msgB2] [[msgB1, msgB2]] msgB2
    (by decide) (by decide) (by decide) (by decide)
    (List.chain'_cons.mpr
      ⟨List.Sublist.refl _, List.chain'_singleton _⟩)

/-- Quiet events (push transport silent, no unsubscribe) preserve the
post-timeout invariant: `onConnected` fired once, push never connected,
the timer is spent, polling is established or being established, and
every loop ever started is still live. -/
theorem stepSub_quiet (s : Sub) (e : Ev) (hq : quietEv e = true)
    (h1 : s.connectedCount = 1) (h2 : s.isConnected = false)
    (h3 : s.timerArmed = false)
    (h4 : 0 < s.hwmPending ∨ s.loops ≠ [])
    (h5 : ∀ l ∈ s.loops, l.live = true) :
    (stepSub s e).1.connectedCount = 1 ∧ (stepSub s e).1.isConnected = false
    ∧ (stepSub s e).1.timerArmed = false
    ∧ (0 < (stepSub s e).1.hwmPending ∨ (stepSub s e).1.loops ≠ [])
    ∧ (∀ l ∈ (stepSub s e).1.loops, l.live = true) := by
  cases e with
  | timerFire =>
      have hred : stepSub s Ev.timerFire = (s, []) := by
        simp [stepSub, h3]
      rw [hred]
      exact ⟨h1, h2, h3, h4, h5⟩
  | pushSubscribed => simp [quietEv] at hq
  | pushInsert m => simp [quietEv] at hq
  | pushError => simp [quietEv] at hq
  | pushDisconnect => simp [quietEv] at hq
  | hwmResolve store =>
      by_cases hp : 0 < s.hwmPending
      · simp only [stepSub, if_pos hp]
        refine ⟨h1, h2, h3, Or.inr (by simp), ?_⟩
        intro l hl
        rcases List.mem_cons.mp hl with rfl | h2
        · rfl
        · exact h5 l h2
      · simp only [stepSub, if_neg hp]
        exact ⟨h1, h2, h3, h4, h5⟩
  | hwmReject =>
      by_cases hp : 0 < s.hwmPending
      · simp only [stepSub, if_pos hp]
        refine ⟨h1, h2, h3, Or.inr (by simp), ?_⟩
        intro l hl
        rcases List.mem_cons.mp hl with rfl | h2
        · rfl
        · exact h5 l h2
      · simp only [stepSub, if_neg hp]
        exact ⟨h1, h2, h3, h4, h5⟩
  | pollStart i =>
      rcases hget : s.loops[i]? with _ | l
      · simp only [stepSub, hget]
        exact ⟨h1, h2, h3, h4, h5⟩
      · simp only [stepSub, hget]
        by_cases hb : l.live && !l.fetchInFlight
        · simp only [if_pos hb]
          refine ⟨h1, h2, h3, ?_, ?_⟩
          · rcases h4 with h | h
            · exact Or.inl h
            · refine Or.inr ?_
              rw [List.length_pos.symm] at h ⊢
              simpa using h
          · intro x hx
            rcases List.mem_or_eq_of_mem_set hx with h | h
            · exact h5 x h
            · rw [h]
              exact h5 l (List.getElem?_mem hget)
        · simp only [if_neg hb]
          exact ⟨h1, h2, h3, h4, h5⟩
  | pollResolve i store =>
      rcases hget : s.loops[i]? with _ | l
      · simp only [stepSub, hget]
        exact ⟨h1, h2, h3, h4, h5⟩
      · simp only [stepSub, hget]
        by_cases hb : l.fetchInFlight
        · simp only [if_pos hb]
          refine ⟨h1, h2, h3, ?_, ?_⟩
          · rcases h4 with h | h
            · exact Or.inl h
            · refine Or.inr ?_
              rw [List.length_pos.symm] at h ⊢
              simpa using h
          · intro x hx
            rcases List.mem_or_eq_of_mem_set hx with h | h
            · exact h5 x h
            · rw [h, pollProcess_live]
              exact h5 l (List.getElem?_mem hget)
        · simp only [if_neg hb]
          exact ⟨h1, h2, h3, h4, h5⟩
  | unsubscribe => simp [quietEv] at hq

/-- The post-timeout invariant is preserved along any quiet trace. -/
theorem runSub_quiet :
    ∀ (evs : List Ev) (s : Sub), (∀ e ∈ evs, quietEv e = true) →
      s.connectedCount = 1 → s.isConnected = false → s.timerArmed = false →
      (0 < s.hwmPending ∨ s.loops ≠ []) → (∀ l ∈ s.loops, l.live = true) →
      (runSub s evs).1.connectedCount = 1
      ∧ (runSub s evs).1.isConnected = false
      ∧ (0 < (runSub s evs).1.hwmPending ∨ (runSub s evs).1.loops ≠ [])
      ∧ (∀ l ∈ (runSub s evs).1.loops, l.live = true) := by
  intro evs
  induction evs with
  | nil =>
      intro s _ h1 h2 _ h4 h5
      exact ⟨h1, h2, h4, h5⟩
  | cons e rest ih =>
      intro s hq h1 h2 h3 h4 h5
      have hstep := stepSub_quiet s e (hq e (List.mem_cons_self e rest)) h1 h2 h3 h4 h5
      exact ih (stepSub s e).1 (fun x hx => hq x (List.mem_cons_of_mem e hx))
        hstep.1 hstep.2.1 hstep.2.2.1 hstep.2.2.2.1 hstep.2.2.2.2

/-- Before any high-water-mark fetch completes, no polling loop exists
and nothing is delivered: timer, poll-start and poll-resolve events
leave an empty loop list empty and deliver nothing. -/
theorem runSub_preHwm :
    ∀ (evs : List Ev) (s : Sub), (∀ e ∈ evs, preHwmEv e = true) →
      s.loops = [] →
      (runSub s evs).1.loops = [] ∧ (runSub s evs).2 = [] := by
  intro evs
  induction evs with
  | nil => intro s _ hl; exact ⟨hl, rfl⟩
  | cons e rest ih =>
      intro s hq hl
      have hstep : (stepSub s e).1.loops = [] ∧ (stepSub s e).2 = [] := by
        have he := hq e (List.mem_cons_self e rest)
        cases e with
        | timerFire =>
            by_cases ht : s.timerArmed = true
            · by_cases hc : s.isConnected = true
              · simp [stepSub, ht, hc, hl]
              · simp only [Bool.not_eq_true] at hc
                simp [stepSub, ht, hc, subFallback, hl]
            · simp only [Bool.not_eq_true] at ht
              simp [stepSub, ht, hl]
        | pollStart i => simp [stepSub, hl]
        | pollResolve i store => simp [stepSub, hl]
        | pushSubscribed => simp [preHwmEv] at he
        | pushInsert m => simp [preHwmEv] at he
        | pushError => simp [preHwmEv] at he
        | pushDisconnect => simp [preHwmEv] at he
        | hwmResolve store => simp [preHwmEv] at he
        | hwmReject => simp [preHwmEv] at he
        | unsubscribe => simp [preHwmEv] at he
      have hrec := ih (stepSub s e).1
        (fun x hx => hq x (List.mem_cons_of_mem e hx)) hstep.1
      refine ⟨hrec.1, ?_⟩
      simp only [runSub]
      rw [hstep.2, hrec.2]
      rfl

/-- C7: with fallback enabled and the push transport never reporting
anything, once the connection timer fires the channel is in the Polling
state and `onConnected` has fired exactly once — and both remain true
across any further quiet activity.  Moreover, along any prefix in which
the high-water-mark fetch has not yet completed, no polling loop exists
and nothing has been delivered: the high-water-mark fetch precedes the
first poll tick. -/
theorem c7_timeout_polling (evs : List Ev)
    (hq : ∀ e ∈ evs, quietEv e = true) :
    chanState (runSub (subInit true) (Ev.timerFire :: evs)).1 = ChanState.polling
    ∧ (runSub (subInit true) (Ev.timerFire :: evs)).1.connectedCount = 1
    ∧ ∀ pre : List Ev, (∀ e ∈ pre, preHwmEv e = true) →
        (runSub (subInit true) (Ev.timerFire :: pre)).1.loops = []
        ∧ (runSub (subInit true) (Ev.timerFire :: pre)).2 = [] := by
  have hstep : stepSub (subInit true) Ev.timerFire =
      (⟨false, false, true, 1, [], false, true, 1, 0⟩, []) := by decide
  have hinv := runSub_quiet evs ⟨false, false, true, 1, [], false, true, 1, 0⟩
    hq rfl rfl rfl (Or.inl (by decide)) (by intro l hl; simp at hl)
  refine ⟨?_, ?_, ?_⟩
  · simp only [runSub, hstep]
    unfold chanState
    rw [hinv.2.1]
    have hpoll : (decide (0 < (runSub
        (⟨false, false, true, 1, [], false, true, 1, 0⟩ : Sub) evs).1.hwmPending)
        || (runSub (⟨false, false, true, 1, [], false, true, 1, 0⟩ : Sub)
            evs).1.loops.any (fun l => l.live)) = true := by
      rcases hinv.2.2.1 with h | h
      · simp [h]
      · cases hl : (runSub (⟨false, false, true, 1, [], false, true, 1, 0⟩ : Sub)
            evs).1.loops with
        | nil => exact absurd hl h
        | cons a as =>
            have ha := hinv.2.2.2 a (by rw [hl]; exact List.mem_cons_self a as)
            simp [ha]
    rw [hpoll]
    rfl
  · simp only [runSub, hstep]
    exact hinv.1
  · intro pre hpre
    have hrec := runSub_preHwm pre ⟨false, false, true, 1, [], false, true, 1, 0⟩
      hpre rfl
    constructor
    · simp only [runSub, hstep]
      exact hrec.1
    · simp only [runSub, hstep]
      rw [hrec.2]
      rfl

/-- Witness for C7 on a concrete quiet trace (timer, high-water-mark
resolution, one poll) and a concrete pre-fetch prefix (timer, an
attempted poll start). -/
theorem c7_witness :
    chanState (runSub (subInit true)
        (Ev.timerFire :: [Ev.hwmResolve [msgB1], Ev.pollResolve 0 [msgB1]])).1
      = ChanState.polling
    ∧ (runSub (subInit true)
        (Ev.timerFire :: [Ev.hwmResolve [msgB1], Ev.pollResolve 0 [msgB1]])).1.connectedCount
      = 1
    ∧ ((runSub (subInit true) (Ev.timerFire :: [Ev.pollStart 0])).1.loops = []
        ∧ (runSub (subInit true) (Ev.timerFire :: [Ev.pollStart 0])).2 = []) :=
  ⟨(c7_timeout_polling [Ev.hwmResolve [msgB1], Ev.pollResolve 0 [msgB1]]
      (by decide)).1,
   (c7_timeout_polling [Ev.hwmResolve [msgB1], Ev.pollResolve 0 [msgB1]]
      (by decide)).2.1,
   (c7_timeout_polling [Ev.hwmResolve [msgB1], Ev.pollResolve 0 [msgB1]]
      (by decide)).2.2 [Ev.pollStart 0] (by decide)⟩

end Boatsew
